import Mathlib

/-!
Shallow embedding of `libs/community/langchain_community/graph_vectorstores/links.py`.

The source file defines one frozen dataclass `GraphStoreLink` (fields
`kind`, `direction`, `tag`), three static factory methods, and two helpers
`get_links` / `add_links` that read and append link values stored under the
reserved metadata key `"links"` of a document.

Modelling choices, all taken from the source:
- Python's `Literal["in", "out", "bidir"]` annotation on `direction` is a
  static type hint only; the generated dataclass `__init__` performs no
  runtime check, so `direction` is embedded as a plain `String` and
  construction is total.
- A document's metadata is a Python `dict`; it is embedded as an ordered
  association list with unique keys (`List (String × Value)`), with
  `dict.setdefault` / item assignment semantics.
- Python list objects are mutable and aliased by reference; to make the
  aliasing observable, lists of links live in an explicit heap
  (`Heap.cells`) and a metadata value of list type stores only a reference
  (an index) into that heap.  `get_links` returns such a reference, exactly
  as the Python function returns the list object itself rather than a copy.
- A value stored under `"links"` is a list (`Value.vlist`), some other
  iterable whose iteration yields links in a fixed order (`Value.viter`),
  or a non-iterable value (`Value.vscalar`, with an opaque payload that
  only serves to distinguish values).  `list(x)` on a non-iterable raises
  `TypeError`, embedded as `Except.error PyError.typeError`.
-/

namespace LangchainLinks

/-- Embedding of the frozen dataclass `GraphStoreLink`: three mandatory
string fields, structural equality (Python `@dataclass(frozen=True, eq=True)`
semantics), and no mutation operation anywhere in the development (the
dataclass is frozen). -/
structure GraphStoreLink where
  kind : String
  direction : String
  tag : String
deriving DecidableEq, Repr

/-- Embedding of the dataclass-generated constructor.  The result is wrapped
in `Except` so that the presence or absence of a construction-time failure is
expressible; the generated `__init__` only assigns the three fields and never
raises, so the embedding always returns `Except.ok`. -/
def GraphStoreLink.construct (kind direction tag : String) :
    Except String GraphStoreLink :=
  Except.ok { kind := kind, direction := direction, tag := tag }

/-- The three direction strings named by the `Literal` annotation. -/
def validDirections : List String := ["in", "out", "bidir"]

/-- Embedding of the static method `GraphStoreLink.incoming`. -/
def GraphStoreLink.incoming (kind tag : String) : GraphStoreLink :=
  { kind := kind, direction := "in", tag := tag }

/-- Embedding of the static method `GraphStoreLink.outgoing`. -/
def GraphStoreLink.outgoing (kind tag : String) : GraphStoreLink :=
  { kind := kind, direction := "out", tag := tag }

/-- Embedding of the static method `GraphStoreLink.bidir`. -/
def GraphStoreLink.bidir (kind tag : String) : GraphStoreLink :=
  { kind := kind, direction := "bidir", tag := tag }

/-- The reserved metadata key, `METADATA_LINKS_KEY = "links"` in the source. -/
def METADATA_LINKS_KEY : String := "links"

/-- A reference to a Python list object: an index into the heap. -/
abbrev Ref := Nat

/-- A metadata value, as far as the two helpers can observe it: a list of
links (held by reference), some other iterable of links (e.g. a tuple, with
its iteration order), or a non-iterable value carrying an opaque payload. -/
inductive Value where
  | vlist (r : Ref)
  | viter (ls : List GraphStoreLink)
  | vscalar (payload : String)
deriving DecidableEq, Repr

/-- The heap of Python list objects holding links; `Value.vlist r` points at
`cells[r]`. -/
structure Heap where
  cells : List (List GraphStoreLink)
deriving DecidableEq, Repr

/-- Read the list object behind a reference (total, defaulting to `[]` for a
dangling reference, which a reachable Python state never has). -/
def Heap.get (h : Heap) (r : Ref) : List GraphStoreLink :=
  h.cells.getD r []

/-- Overwrite the list object behind a reference in place. -/
def Heap.set (h : Heap) (r : Ref) (l : List GraphStoreLink) : Heap :=
  ⟨h.cells.set r l⟩

/-- A document, reduced to the one field the two helpers touch: its metadata
mapping, embedded as an ordered association list with unique keys. -/
structure Doc where
  metadata : List (String × Value)
deriving DecidableEq, Repr

/-- Python `dict` item assignment `m[k] = v`: replace the value of an
existing key in place, else append the new pair. -/
def setPairs : List (String × Value) → String → Value → List (String × Value)
  | [], k, v => [(k, v)]
  | (k', v') :: rest, k, v =>
      if k' = k then (k, v) :: rest else (k', v') :: setPairs rest k v

/-- Errors the embedded code can raise: `list(x)` on a non-iterable raises
Python's `TypeError`. -/
inductive PyError where
  | typeError
deriving DecidableEq, Repr

/-- Embedding of `get_links(doc)`:

```
links = doc.metadata.setdefault(METADATA_LINKS_KEY, [])
if not isinstance(links, list):
    links = list(links)
    doc.metadata[METADATA_LINKS_KEY] = links
return links
```

`setdefault` returns the stored value when the key is present, else inserts
a fresh empty list and returns it; the fresh default list is only allocated
(observably) in that branch.  A non-list iterable is copied element by
element, in iteration order, into a fresh list which replaces the metadata
entry; a non-iterable raises `TypeError`.  The returned reference aliases
the list object stored in the metadata, exactly as in Python. -/
def get_links (d : Doc) (h : Heap) : Except PyError (Ref × Doc × Heap) :=
  match List.lookup METADATA_LINKS_KEY d.metadata with
  | none =>
      let r := h.cells.length
      Except.ok (r, ⟨setPairs d.metadata METADATA_LINKS_KEY (Value.vlist r)⟩,
        ⟨h.cells ++ [[]]⟩)
  | some (Value.vlist r) => Except.ok (r, d, h)
  | some (Value.viter ls) =>
      let r := h.cells.length
      Except.ok (r, ⟨setPairs d.metadata METADATA_LINKS_KEY (Value.vlist r)⟩,
        ⟨h.cells ++ [ls]⟩)
  | some (Value.vscalar _) => Except.error PyError.typeError

/-- One positional argument of `add_links`: the `isinstance(link, Iterable)`
dispatch in the source distinguishes a bare `GraphStoreLink` (appended as a
single element) from an iterable of links (extended element by element). -/
inductive LinkArg where
  | single (l : GraphStoreLink)
  | iter (ls : List GraphStoreLink)
deriving DecidableEq, Repr

/-- The links contributed by one argument, in order. -/
def LinkArg.toLinks : LinkArg → List GraphStoreLink
  | LinkArg.single l => [l]
  | LinkArg.iter ls => ls

/-- One-level flattening of an argument list, left to right. -/
def flattenArgs (args : List LinkArg) : List GraphStoreLink :=
  args.foldr (fun a acc => a.toLinks ++ acc) []

/-- One loop iteration of `add_links`: `links_in_metadata.append(link)` or
`links_in_metadata.extend(link)`, an in-place mutation of the list object
behind `r`. -/
def appendArg (h : Heap) (r : Ref) (a : LinkArg) : Heap :=
  match a with
  | LinkArg.single l => h.set r (h.get r ++ [l])
  | LinkArg.iter ls => h.set r (h.get r ++ ls)

/-- Embedding of `add_links(doc, *links)`:

```
links_in_metadata = get_links(doc)
for link in links:
    if isinstance(link, Iterable):
        links_in_metadata.extend(link)
    else:
        links_in_metadata.append(link)
```

The function returns `None` in Python; the embedding returns the updated
document and heap. -/
def add_links (d : Doc) (h : Heap) (args : List LinkArg) :
    Except PyError (Doc × Heap) :=
  match get_links d h with
  | Except.error e => Except.error e
  | Except.ok (r, d1, h1) =>
      Except.ok (d1, args.foldl (fun hh a => appendArg hh r a) h1)

/-- Well-formedness of a reachable Python state: if the metadata already
holds a list under `"links"`, the reference points inside the heap.  Python
guarantees this for every state its runtime can produce. -/
def wfLinks (d : Doc) (h : Heap) : Bool :=
  match List.lookup METADATA_LINKS_KEY d.metadata with
  | some (Value.vlist r) => decide (r < h.cells.length)
  | _ => true

/-! Helper lemmas about the association list and the heap. -/

theorem lookup_setPairs_self (m : List (String × Value)) (k : String) (v : Value) :
    List.lookup k (setPairs m k v) = some v := by
  induction m with
  | nil => simp [setPairs, List.lookup]
  | cons p rest ih =>
      obtain ⟨k', v'⟩ := p
      by_cases hkk : k' = k
      · simp [setPairs, hkk, List.lookup]
      · simp only [setPairs, if_neg hkk, List.lookup]
        have : (k == k') = false := by
          simp [beq_iff_eq]
          exact fun he => hkk he.symm
        rw [this]
        exact ih

theorem lookup_setPairs_ne (m : List (String × Value)) (k k' : String) (v : Value)
    (hne : k' ≠ k) :
    List.lookup k' (setPairs m k v) = List.lookup k' m := by
  induction m with
  | nil =>
      simp [setPairs, List.lookup]
      rw [show (k' == k) = false by simp [beq_iff_eq]; exact hne]
  | cons p rest ih =>
      obtain ⟨k'', v''⟩ := p
      by_cases hkk : k'' = k
      · subst hkk
        simp only [setPairs, if_pos rfl, List.lookup]
        rw [show (k' == k'') = false by simp [beq_iff_eq]; exact hne]
      · simp only [setPairs, if_neg hkk, List.lookup]
        cases hbe : (k' == k'') with
        | true => rfl
        | false => exact ih

theorem getD_set_self (l : List (List GraphStoreLink)) (r : Nat)
    (x : List GraphStoreLink) (hr : r < l.length) :
    (l.set r x).getD r [] = x := by
  induction l generalizing r with
  | nil => simp at hr
  | cons hd tl ih =>
      cases r with
      | zero => rfl
      | succ n =>
          simp only [List.set, List.getD, List.get?]
          have := ih n (by simpa using hr)
          simpa [List.getD] using this

theorem getD_append_length (l : List (List GraphStoreLink)) (x : List GraphStoreLink) :
    (l ++ [x]).getD l.length [] = x := by
  induction l with
  | nil => rfl
  | cons hd tl ih =>
      rw [List.cons_append, List.length_cons]
      rw [show ((hd :: (tl ++ [x])).getD (tl.length + 1) [] : List GraphStoreLink)
          = (tl ++ [x]).getD tl.length [] by simp [List.getD]]
      exact ih

theorem appendArg_cells_length (hh : Heap) (r : Ref) (a : LinkArg) :
    (appendArg hh r a).cells.length = hh.cells.length := by
  cases a <;> simp [appendArg, Heap.set]

theorem appendArg_get_self (hh : Heap) (r : Ref) (a : LinkArg)
    (hr : r < hh.cells.length) :
    (appendArg hh r a).get r = hh.get r ++ a.toLinks := by
  cases a <;> exact getD_set_self _ _ _ hr

theorem flattenArgs_nil : flattenArgs [] = [] := rfl

theorem flattenArgs_cons (a : LinkArg) (rest : List LinkArg) :
    flattenArgs (a :: rest) = a.toLinks ++ flattenArgs rest := rfl

theorem foldl_appendArg_props (args : List LinkArg) (r : Ref) (hh : Heap)
    (hr : r < hh.cells.length) :
    (args.foldl (fun acc a => appendArg acc r a) hh).get r
        = hh.get r ++ flattenArgs args ∧
    (args.foldl (fun acc a => appendArg acc r a) hh).cells.length
        = hh.cells.length := by
  induction args generalizing hh with
  | nil => simp [flattenArgs_nil]
  | cons a rest ih =>
      have hlen := appendArg_cells_length hh r a
      have hr' : r < (appendArg hh r a).cells.length := by rw [hlen]; exact hr
      obtain ⟨hg, hl⟩ := ih (appendArg hh r a) hr'
      refine ⟨?_, ?_⟩
      · rw [List.foldl_cons, hg, appendArg_get_self hh r a hr,
          flattenArgs_cons, List.append_assoc]
      · rw [List.foldl_cons, hl, hlen]

/-! Characterization lemmas for `get_links` and `add_links`, shared by the
claim theorems below. -/

theorem get_links_ok_props (d : Doc) (h : Heap) (r : Ref) (d1 : Doc) (h1 : Heap)
    (hg : get_links d h = Except.ok (r, d1, h1)) :
    List.lookup METADATA_LINKS_KEY d1.metadata = some (Value.vlist r) ∧
    (wfLinks d h = true → r < h1.cells.length) ∧
    (∀ k, k ≠ METADATA_LINKS_KEY → List.lookup k d1.metadata = List.lookup k d.metadata) := by
  unfold get_links at hg
  cases hv : List.lookup METADATA_LINKS_KEY d.metadata with
  | none =>
      rw [hv] at hg
      simp only [Except.ok.injEq, Prod.mk.injEq] at hg
      obtain ⟨rfl, rfl, rfl⟩ := hg
      refine ⟨lookup_setPairs_self _ _ _, ?_, ?_⟩
      · intro _; simp
      · intro k hk; exact lookup_setPairs_ne _ _ _ _ hk
  | some v =>
      cases v with
      | vlist r' =>
          rw [hv] at hg
          simp only [Except.ok.injEq, Prod.mk.injEq] at hg
          obtain ⟨rfl, rfl, rfl⟩ := hg
          refine ⟨hv, ?_, fun _ _ => rfl⟩
          intro hwf
          unfold wfLinks at hwf
          rw [hv] at hwf
          simpa using hwf
      | viter ls =>
          rw [hv] at hg
          simp only [Except.ok.injEq, Prod.mk.injEq] at hg
          obtain ⟨rfl, rfl, rfl⟩ := hg
          refine ⟨lookup_setPairs_self _ _ _, ?_, ?_⟩
          · intro _; simp
          · intro k hk; exact lookup_setPairs_ne _ _ _ _ hk
      | vscalar p =>
          rw [hv] at hg
          exact absurd hg (by simp)

theorem get_links_of_lookup_vlist (d : Doc) (h : Heap) (r : Ref)
    (hl : List.lookup METADATA_LINKS_KEY d.metadata = some (Value.vlist r)) :
    get_links d h = Except.ok (r, d, h) := by
  unfold get_links; rw [hl]

theorem add_links_fold (d : Doc) (h : Heap) (args : List LinkArg)
    (r : Ref) (d1 : Doc) (h1 : Heap)
    (hg : get_links d h = Except.ok (r, d1, h1)) :
    add_links d h args
      = Except.ok (d1, args.foldl (fun hh a => appendArg hh r a) h1) := by
  unfold add_links; rw [hg]

/-! Concrete example values used by the witness theorems. -/

/-- Example document whose metadata already holds an empty link list at
heap cell 0. -/
def exDoc : Doc := ⟨[("links", Value.vlist 0)]⟩

/-- Example heap with a single empty list cell. -/
def exHeap : Heap := ⟨[[]]⟩

/-- Example links. -/
def La : GraphStoreLink := GraphStoreLink.outgoing "k" "a"

/-- Example links. -/
def Lb : GraphStoreLink := GraphStoreLink.incoming "k" "b"

/-- Example links. -/
def Lc : GraphStoreLink := GraphStoreLink.bidir "k" "c"

/-- Example links. -/
def Ld : GraphStoreLink := GraphStoreLink.outgoing "k" "d"

/-- Example argument list for `add_links`: a bare link, an iterable of two
links, and another bare link. -/
def exArgs : List LinkArg := [LinkArg.single La, LinkArg.iter [Lb, Lc], LinkArg.single Ld]

/-! The claim theorems. -/

/-- Claim C1: for every document and every left-to-right sequence of
positional arguments to `add_links` (each a single link or an iterable of
links), `add_links` appends to the document's existing `"links"` sequence
all links flattened exactly one level, preserving argument order and the
iteration order within each iterable argument; in particular
`add_links(doc, L1, [L2, L3], L4)` leaves the sequence ending with
`L1, L2, L3, L4` in that order.  The existing sequence is the list object
`get_links` returns, read through its reference `r`; well-formedness of the
state (`wfLinks`) says that reference is a real heap cell, as in every
reachable Python state. -/
theorem add_links_flattens_in_order (d : Doc) (h : Heap) (args : List LinkArg)
    (r : Ref) (d1 : Doc) (h1 : Heap)
    (hwf : wfLinks d h = true)
    (hg : get_links d h = Except.ok (r, d1, h1)) :
    ∃ h2, add_links d h args = Except.ok (d1, h2) ∧
      h2.get r = h1.get r ++ flattenArgs args ∧
      ∀ L1 L2 L3 L4,
        args = [LinkArg.single L1, LinkArg.iter [L2, L3], LinkArg.single L4] →
        h2.get r = h1.get r ++ [L1, L2, L3, L4] := by
  obtain ⟨hl, hb, _⟩ := get_links_ok_props d h r d1 h1 hg
  have hr := hb hwf
  refine ⟨_, add_links_fold d h args r d1 h1 hg, ?_, ?_⟩
  · exact (foldl_appendArg_props args r h1 hr).1
  · rintro L1 L2 L3 L4 rfl
    rw [(foldl_appendArg_props _ r h1 hr).1]
    rfl

/-- Witness for C1 at a concrete document, heap and argument list. -/
theorem add_links_flattens_in_order_witness :
    ∃ h2, add_links exDoc exHeap exArgs = Except.ok (exDoc, h2) ∧
      h2.get 0 = exHeap.get 0 ++ flattenArgs exArgs ∧
      ∀ L1 L2 L3 L4,
        exArgs = [LinkArg.single L1, LinkArg.iter [L2, L3], LinkArg.single L4] →
        h2.get 0 = exHeap.get 0 ++ [L1, L2, L3, L4] :=
  add_links_flattens_in_order exDoc exHeap exArgs 0 exDoc exHeap rfl rfl

/-- Claim C2: for every document whose metadata mapping has no `"links"`
entry, `get_links` returns an empty sequence, and after the call the
metadata mapping contains the key `"links"` bound to an empty sequence
(created as a side effect of the read). -/
theorem get_links_absent_initializes (d : Doc) (h : Heap)
    (hnone : List.lookup METADATA_LINKS_KEY d.metadata = none) :
    ∃ r d1 h1, get_links d h = Except.ok (r, d1, h1) ∧
      h1.get r = [] ∧
      List.lookup METADATA_LINKS_KEY d1.metadata = some (Value.vlist r) := by
  refine ⟨h.cells.length,
    ⟨setPairs d.metadata METADATA_LINKS_KEY (Value.vlist h.cells.length)⟩,
    ⟨h.cells ++ [[]]⟩, ?_, getD_append_length _ _, lookup_setPairs_self _ _ _⟩
  unfold get_links; rw [hnone]

/-- Witness for C2 at a concrete document with no `"links"` entry. -/
theorem get_links_absent_initializes_witness :
    ∃ r d1 h1,
      get_links ⟨[("other", Value.vscalar "x")]⟩ ⟨[]⟩ = Except.ok (r, d1, h1) ∧
      h1.get r = [] ∧
      List.lookup METADATA_LINKS_KEY d1.metadata = some (Value.vlist r) :=
  get_links_absent_initializes ⟨[("other", Value.vscalar "x")]⟩ ⟨[]⟩ rfl

/-- Claim C3: `get_links` is idempotent and returns an alias: a second call
returns the very same reference (and leaves document and heap unchanged),
the metadata entry holds that same reference, and an in-place mutation
performed later through `add_links` is visible both through the previously
returned handle `r` and through the metadata mapping entry (which still
points at `r`). -/
theorem get_links_idempotent_alias (d : Doc) (h : Heap) (r : Ref) (d1 : Doc) (h1 : Heap)
    (hwf : wfLinks d h = true)
    (hg : get_links d h = Except.ok (r, d1, h1)) :
    get_links d1 h1 = Except.ok (r, d1, h1) ∧
    List.lookup METADATA_LINKS_KEY d1.metadata = some (Value.vlist r) ∧
    ∀ args d2 h2, add_links d1 h1 args = Except.ok (d2, h2) →
      h2.get r = h1.get r ++ flattenArgs args ∧
      List.lookup METADATA_LINKS_KEY d2.metadata = some (Value.vlist r) := by
  obtain ⟨hl, hb, _⟩ := get_links_ok_props d h r d1 h1 hg
  have hr := hb hwf
  have hsecond := get_links_of_lookup_vlist d1 h1 r hl
  refine ⟨hsecond, hl, ?_⟩
  intro args d2 h2 hadd
  rw [add_links_fold d1 h1 args r d1 h1 hsecond] at hadd
  simp only [Except.ok.injEq, Prod.mk.injEq] at hadd
  obtain ⟨rfl, rfl⟩ := hadd
  exact ⟨(foldl_appendArg_props args r h1 hr).1, hl⟩

/-- Witness for C3 at a concrete document and heap. -/
theorem get_links_idempotent_alias_witness :
    get_links exDoc exHeap = Except.ok (0, exDoc, exHeap) ∧
    List.lookup METADATA_LINKS_KEY exDoc.metadata = some (Value.vlist 0) ∧
    ∀ args d2 h2, add_links exDoc exHeap args = Except.ok (d2, h2) →
      h2.get 0 = exHeap.get 0 ++ flattenArgs args ∧
      List.lookup METADATA_LINKS_KEY d2.metadata = some (Value.vlist 0) :=
  get_links_idempotent_alias exDoc exHeap 0 exDoc exHeap rfl rfl

/-- Counterexample to C4 as stated: `"sideways"` is not one of the three
direction literals, yet construction succeeds — the dataclass-generated
constructor performs no runtime validation of the `Literal` annotation, so
no `InvalidArgument`-class failure occurs. -/
theorem link_construct_no_validation_cex :
    "sideways" ∉ validDirections ∧
    GraphStoreLink.construct "kw" "sideways" "t"
      = Except.ok { kind := "kw", direction := "sideways", tag := "t" } :=
  ⟨by decide, rfl⟩

/-- Claim C4 (amended): constructing a `GraphStoreLink` always succeeds, for
every direction string, including values outside `in`/`out`/`bidir` — the
`Literal` type on `direction` is a static annotation only and no runtime
validation is performed. -/
theorem link_construct_total (kind direction tag : String) :
    GraphStoreLink.construct kind direction tag
      = Except.ok { kind := kind, direction := direction, tag := tag } := rfl

/-- Claim C5: for every document whose metadata holds `"links"` as an
iterable that is not already a list, `get_links` converts the value to a
list preserving the elements and their order, and the converted list
replaces the original entry in the metadata mapping. -/
theorem get_links_converts_iterable (d : Doc) (h : Heap) (ls : List GraphStoreLink)
    (hiter : List.lookup METADATA_LINKS_KEY d.metadata = some (Value.viter ls)) :
    ∃ r d1 h1, get_links d h = Except.ok (r, d1, h1) ∧
      h1.get r = ls ∧
      List.lookup METADATA_LINKS_KEY d1.metadata = some (Value.vlist r) := by
  refine ⟨h.cells.length,
    ⟨setPairs d.metadata METADATA_LINKS_KEY (Value.vlist h.cells.length)⟩,
    ⟨h.cells ++ [ls]⟩, ?_, getD_append_length _ _, lookup_setPairs_self _ _ _⟩
  unfold get_links; rw [hiter]

/-- Witness for C5 at a concrete document holding a non-list iterable of
two links. -/
theorem get_links_converts_iterable_witness :
    ∃ r d1 h1,
      get_links ⟨[("links", Value.viter [La, Lb])]⟩ ⟨[]⟩ = Except.ok (r, d1, h1) ∧
      h1.get r = [La, Lb] ∧
      List.lookup METADATA_LINKS_KEY d1.metadata = some (Value.vlist r) :=
  get_links_converts_iterable ⟨[("links", Value.viter [La, Lb])]⟩ ⟨[]⟩ [La, Lb] rfl

/-- Claim C6: `get_links` fails — with Python's `TypeError`, raised by
`list(x)` on a non-iterable — exactly when the metadata holds `"links"`
bound to a non-iterable value, and in no other case. -/
theorem get_links_typeError_iff (d : Doc) (h : Heap) :
    get_links d h = Except.error PyError.typeError ↔
      ∃ p, List.lookup METADATA_LINKS_KEY d.metadata = some (Value.vscalar p) := by
  cases hv : List.lookup METADATA_LINKS_KEY d.metadata with
  | none => unfold get_links; rw [hv]; simp
  | some v =>
      cases v with
      | vlist r => unfold get_links; rw [hv]; simp
      | viter ls => unfold get_links; rw [hv]; simp
      | vscalar p => unfold get_links; rw [hv]; simp

/-- Claim C7: the three static factory methods agree with direct
construction — `incoming k t` is the link constructed with direction
`"in"`, `outgoing k t` with `"out"`, `bidir k t` with `"bidir"` — and they
are pure (they are plain functions of their arguments with no state). -/
theorem factories_agree_with_construct (k t : String) :
    GraphStoreLink.construct k "in" t = Except.ok (GraphStoreLink.incoming k t) ∧
    GraphStoreLink.construct k "out" t = Except.ok (GraphStoreLink.outgoing k t) ∧
    GraphStoreLink.construct k "bidir" t = Except.ok (GraphStoreLink.bidir k t) :=
  ⟨rfl, rfl, rfl⟩

/-- Claim C8: two `GraphStoreLink` values are equal exactly when all three
fields are pairwise equal (hence a link differing in any single field is
unequal).  Immutability and the absence of defaults are structural in the
embedding, as in the source: the dataclass is frozen (no mutator exists)
and its constructor takes all three fields with no default. -/
theorem link_eq_iff_fields (a b : GraphStoreLink) :
    a = b ↔ a.kind = b.kind ∧ a.direction = b.direction ∧ a.tag = b.tag := by
  cases a; cases b; simp

/-- Claim C9: two successive `add_links` calls append cumulatively — after
the second call the sequence is the entire sequence present after the first
call, unchanged and in order, followed by the links added by the second
call; nothing is removed, reordered or deduplicated. -/
theorem add_links_cumulative (d : Doc) (h : Heap) (args1 args2 : List LinkArg)
    (r : Ref) (d1 : Doc) (h1 : Heap)
    (hwf : wfLinks d h = true)
    (hg : get_links d h = Except.ok (r, d1, h1)) :
    ∃ h2 h3, add_links d h args1 = Except.ok (d1, h2) ∧
      add_links d1 h2 args2 = Except.ok (d1, h3) ∧
      h2.get r = h1.get r ++ flattenArgs args1 ∧
      h3.get r = h2.get r ++ flattenArgs args2 := by
  obtain ⟨hl, hb, _⟩ := get_links_ok_props d h r d1 h1 hg
  have hr := hb hwf
  obtain ⟨hc2, hlen2⟩ := foldl_appendArg_props args1 r h1 hr
  have hr2 : r < (args1.foldl (fun hh a => appendArg hh r a) h1).cells.length := by
    rw [hlen2]; exact hr
  have hsecondget :
      get_links d1 (args1.foldl (fun hh a => appendArg hh r a) h1)
        = Except.ok (r, d1, args1.foldl (fun hh a => appendArg hh r a) h1) :=
    get_links_of_lookup_vlist d1 _ r hl
  obtain ⟨hc3, _⟩ := foldl_appendArg_props args2 r _ hr2
  exact ⟨_, _, add_links_fold d h args1 r d1 h1 hg,
    add_links_fold d1 _ args2 r d1 _ hsecondget, hc2, hc3⟩

/-- Witness for C9 at a concrete document, heap and two argument lists. -/
theorem add_links_cumulative_witness :
    ∃ h2 h3, add_links exDoc exHeap [LinkArg.single La] = Except.ok (exDoc, h2) ∧
      add_links exDoc h2 exArgs = Except.ok (exDoc, h3) ∧
      h2.get 0 = exHeap.get 0 ++ flattenArgs [LinkArg.single La] ∧
      h3.get 0 = h2.get 0 ++ flattenArgs exArgs :=
  add_links_cumulative exDoc exHeap [LinkArg.single La] exArgs 0 exDoc exHeap rfl rfl

/-- Claim C10: `get_links` and `add_links` mutate at most the `"links"`
entry of the metadata mapping — every other key keeps its value — and
`add_links` with zero link arguments only creates the `"links"` entry
(bound to an empty list) when it is absent. -/
theorem links_ops_frame (d : Doc) (h : Heap) (k : String)
    (hk : k ≠ METADATA_LINKS_KEY) :
    (∀ r d1 h1, get_links d h = Except.ok (r, d1, h1) →
      List.lookup k d1.metadata = List.lookup k d.metadata) ∧
    (∀ args d2 h2, add_links d h args = Except.ok (d2, h2) →
      List.lookup k d2.metadata = List.lookup k d.metadata) ∧
    (List.lookup METADATA_LINKS_KEY d.metadata = none →
      ∀ d2 h2, add_links d h [] = Except.ok (d2, h2) →
        ∃ r, List.lookup METADATA_LINKS_KEY d2.metadata = some (Value.vlist r) ∧
          h2.get r = []) := by
  refine ⟨?_, ?_, ?_⟩
  · intro r d1 h1 hgl
    exact (get_links_ok_props d h r d1 h1 hgl).2.2 k hk
  · intro args d2 h2 hadd
    unfold add_links at hadd
    cases hgl : get_links d h with
    | error e => rw [hgl] at hadd; cases hadd
    | ok t =>
        obtain ⟨r, d1, h1⟩ := t
        rw [hgl] at hadd
        simp only [Except.ok.injEq, Prod.mk.injEq] at hadd
        obtain ⟨rfl, rfl⟩ := hadd
        exact (get_links_ok_props d h r d1 h1 hgl).2.2 k hk
  · intro hnone d2 h2 hadd
    have hgl : get_links d h = Except.ok (h.cells.length,
        ⟨setPairs d.metadata METADATA_LINKS_KEY (Value.vlist h.cells.length)⟩,
        ⟨h.cells ++ [[]]⟩) := by
      unfold get_links; rw [hnone]
    rw [add_links_fold d h [] _ _ _ hgl] at hadd
    simp only [List.foldl_nil, Except.ok.injEq, Prod.mk.injEq] at hadd
    obtain ⟨rfl, rfl⟩ := hadd
    exact ⟨h.cells.length, lookup_setPairs_self _ _ _, getD_append_length _ _⟩

/-- Witness for C10 at a concrete document, heap and key. -/
theorem links_ops_frame_witness :
    (∀ r d1 h1, get_links exDoc exHeap = Except.ok (r, d1, h1) →
      List.lookup "other" d1.metadata = List.lookup "other" exDoc.metadata) ∧
    (∀ args d2 h2, add_links exDoc exHeap args = Except.ok (d2, h2) →
      List.lookup "other" d2.metadata = List.lookup "other" exDoc.metadata) ∧
    (List.lookup METADATA_LINKS_KEY exDoc.metadata = none →
      ∀ d2 h2, add_links exDoc exHeap [] = Except.ok (d2, h2) →
        ∃ r, List.lookup METADATA_LINKS_KEY d2.metadata = some (Value.vlist r) ∧
          h2.get r = []) :=
  links_ops_frame exDoc exHeap "other" (by decide)

end LangchainLinks
